import Mathlib

/-!
Shallow embedding of `src/pitivi_mover.py` (a tool that rewrites `file:`
URIs inside Pitivi `.xges` project files after media files moved on disk).

Python strings are modelled as `List Char` (Unicode code points), matching
CPython `str`.  The helpers of `urllib.parse` used by the source
(`urlsplit`, `urlunsplit`, `quote`, `unquote`) are modelled after the
CPython 3.11 implementation of `urllib/parse.py`, which is the Python
family the source targets (it uses `glob.iglob(..., root_dir=...)`,
available from Python 3.10).

The filesystem is abstracted: `os.path.exists` becomes an oracle
`PyStr → Bool`, and for the backup routine the filesystem is a partial map
from paths to file contents.
-/

namespace PitiviMover

/-- Python string: a sequence of Unicode code points. -/
abbrev PyStr := List Char

/-- Attribute list of an XML element (CPython dict entries, in insertion
order, keys unique). -/
abbrev Attr := PyStr × PyStr

def isAsciiUpper (c : Char) : Bool := 0x41 ≤ c.toNat && c.toNat ≤ 0x5A

def isAsciiLower (c : Char) : Bool := 0x61 ≤ c.toNat && c.toNat ≤ 0x7A

def isAsciiAlpha (c : Char) : Bool := isAsciiUpper c || isAsciiLower c

def isAsciiDigit (c : Char) : Bool := 0x30 ≤ c.toNat && c.toNat ≤ 0x39

def isAsciiChar (c : Char) : Bool := c.toNat ≤ 0x7F

/-- Test whether `pat` is an initial segment of `s`. -/
def leadsWith : PyStr → PyStr → Bool
  | [], _ => true
  | _ :: _, [] => false
  | p :: ps, c :: cs => (p == c) && leadsWith ps cs

/-- Python `s.replace(old, new, 1)`: replace the leftmost occurrence of
`old` in `s` by `new` (at most once).  With `old = ""`, Python inserts
`new` in front of `s`, which the `leadsWith` base case reproduces. -/
def replaceFirst (s old new : PyStr) : PyStr :=
  if leadsWith old s then new ++ s.drop old.length
  else
    match s with
    | [] => []
    | c :: rest => c :: replaceFirst rest old new

/-- Python `pat in s` (substring containment). -/
def containsSub (pat : PyStr) : PyStr → Bool
  | [] => pat.isEmpty
  | c :: rest => leadsWith pat (c :: rest) || containsSub pat rest

/-- Recursion core of `countOcc`.  The `fuel` argument makes the
recursion structural (the list skips by `pat.length` after a match); it
is always invoked with `fuel = s.length`, which bounds the recursion
depth, so the `fuel = 0` arm is never reached. -/
def countOccGo (pat : PyStr) : Nat → PyStr → Nat
  | _, [] => if pat = [] then 1 else 0
  | 0, _ :: _ => 0
  | f + 1, c :: rest =>
    if pat = [] then (c :: rest).length + 1
    else if leadsWith pat (c :: rest) then
      1 + countOccGo pat f ((c :: rest).drop pat.length)
    else
      countOccGo pat f rest

/-- Python `s.count(pat)`: number of non-overlapping occurrences scanning
from the left (`len(s) + 1` for the empty pattern, as in CPython). -/
def countOcc (pat s : PyStr) : Nat := countOccGo pat s.length s

/-- UTF-8 encoding of one code point (total on Lean `Char`, which is
exactly the set of Unicode scalar values, as is CPython `str.encode` on
strings without lone surrogates). -/
def utf8EncodeChar (c : Char) : List Nat :=
  let n := c.toNat
  if n < 0x80 then [n]
  else if n < 0x800 then [0xC0 + n / 64, 0x80 + n % 64]
  else if n < 0x10000 then
    [0xE0 + n / 4096, 0x80 + (n / 64) % 64, 0x80 + n % 64]
  else
    [0xF0 + n / 262144, 0x80 + (n / 4096) % 64, 0x80 + (n / 64) % 64, 0x80 + n % 64]

/-- The replacement character U+FFFD used by `errors="replace"`. -/
def replChar : Char := Char.ofNat 0xFFFD

/-- Valid second byte of a three-byte UTF-8 sequence headed by `b`. -/
def utf8Cont3 (b b2 : Nat) : Bool :=
  if b = 0xE0 then 0xA0 ≤ b2 && b2 ≤ 0xBF
  else if b = 0xED then 0x80 ≤ b2 && b2 ≤ 0x9F
  else 0x80 ≤ b2 && b2 ≤ 0xBF

/-- Valid second byte of a four-byte UTF-8 sequence headed by `b`. -/
def utf8Cont4 (b b2 : Nat) : Bool :=
  if b = 0xF0 then 0x90 ≤ b2 && b2 ≤ 0xBF
  else if b = 0xF4 then 0x80 ≤ b2 && b2 ≤ 0x8F
  else 0x80 ≤ b2 && b2 ≤ 0xBF

/-- One step of the UTF-8 decoder with `errors="replace"`: given the
leading byte `b` and the remaining bytes, produce the decoded character
(U+FFFD for a maximal invalid subpart) and the unconsumed bytes. -/
def utf8Step (b : Nat) (rest : List Nat) : Char × List Nat :=
  if b < 0x80 then (Char.ofNat b, rest)
  else if 0xC2 ≤ b && b ≤ 0xDF then
    match rest with
    | [] => (replChar, [])
    | b2 :: rest2 =>
      if 0x80 ≤ b2 && b2 ≤ 0xBF then
        (Char.ofNat ((b - 0xC0) * 64 + (b2 - 0x80)), rest2)
      else (replChar, b2 :: rest2)
  else if 0xE0 ≤ b && b ≤ 0xEF then
    match rest with
    | [] => (replChar, [])
    | b2 :: rest2 =>
      if utf8Cont3 b b2 then
        match rest2 with
        | [] => (replChar, [])
        | b3 :: rest3 =>
          if 0x80 ≤ b3 && b3 ≤ 0xBF then
            (Char.ofNat ((b - 0xE0) * 4096 + (b2 - 0x80) * 64 + (b3 - 0x80)), rest3)
          else (replChar, b3 :: rest3)
      else (replChar, b2 :: rest2)
  else if 0xF0 ≤ b && b ≤ 0xF4 then
    match rest with
    | [] => (replChar, [])
    | b2 :: rest2 =>
      if utf8Cont4 b b2 then
        match rest2 with
        | [] => (replChar, [])
        | b3 :: rest3 =>
          if 0x80 ≤ b3 && b3 ≤ 0xBF then
            match rest3 with
            | [] => (replChar, [])
            | b4 :: rest4 =>
              if 0x80 ≤ b4 && b4 ≤ 0xBF then
                (Char.ofNat ((b - 0xF0) * 262144 + (b2 - 0x80) * 4096 +
                    (b3 - 0x80) * 64 + (b4 - 0x80)), rest4)
              else (replChar, b4 :: rest4)
          else (replChar, b3 :: rest3)
      else (replChar, b2 :: rest2)
  else (replChar, rest)

/-- Recursion core of `utf8DecodeReplace`; `fuel = l.length` bounds the
recursion depth (each step consumes at least one byte, see the theorem
`utf8Step_len` below), so the `fuel = 0` arm is unreachable and the
definition is structurally recursive. -/
def utf8DecodeGo : Nat → List Nat → PyStr
  | _, [] => []
  | 0, _ :: _ => []
  | f + 1, b :: rest =>
    (utf8Step b rest).fst :: utf8DecodeGo f (utf8Step b rest).snd

/-- CPython `bytes.decode("utf-8", errors="replace")`: strict RFC 3629
decoding, emitting one U+FFFD per maximal invalid subpart. -/
def utf8DecodeReplace (l : List Nat) : PyStr := utf8DecodeGo l.length l

def hexDigitVal (c : Char) : Option Nat :=
  if 0x30 ≤ c.toNat && c.toNat ≤ 0x39 then some (c.toNat - 0x30)
  else if 0x41 ≤ c.toNat && c.toNat ≤ 0x46 then some (c.toNat - 0x37)
  else if 0x61 ≤ c.toNat && c.toNat ≤ 0x66 then some (c.toNat - 0x57)
  else none

/-- CPython `unquote_to_bytes` restricted to an all-ASCII run: each `%`
followed by two hex digits becomes one byte, any other `%` stays literal,
plain characters become their ASCII byte. -/
def percentDecodeAsciiRun : PyStr → List Nat
  | [] => []
  | '%' :: h1 :: h2 :: rest =>
    match hexDigitVal h1, hexDigitVal h2 with
    | some a, some b => (16 * a + b) :: percentDecodeAsciiRun rest
    | _, _ => 0x25 :: percentDecodeAsciiRun (h1 :: h2 :: rest)
  | c :: rest => c.toNat :: percentDecodeAsciiRun rest

/-- Recursion core of `unquote`; `fuel = s.length` bounds the recursion
depth (each step consumes at least one character), keeping the
definition structurally recursive. -/
def unquoteGo : Nat → PyStr → PyStr
  | _, [] => []
  | 0, _ :: _ => []
  | f + 1, c :: rest =>
    if isAsciiChar c then
      utf8DecodeReplace (percentDecodeAsciiRun (c :: rest.takeWhile isAsciiChar)) ++
        unquoteGo f (rest.dropWhile isAsciiChar)
    else c :: unquoteGo f rest

/-- CPython `urllib.parse.unquote(s)` with the default UTF-8/replace
decoding: maximal ASCII runs are percent-decoded to bytes and UTF-8
decoded; non-ASCII characters pass through unchanged (they separate the
byte runs, as the `_asciire` split does in CPython). -/
def unquote (s : PyStr) : PyStr := unquoteGo s.length s

/-- Bytes CPython `quote` leaves unescaped: `_ALWAYS_SAFE` (ASCII
letters, digits, `_.-~`) plus the default `safe="/"`. -/
def alwaysSafeByte (b : Nat) : Bool :=
  (0x41 ≤ b && b ≤ 0x5A) || (0x61 ≤ b && b ≤ 0x7A) || (0x30 ≤ b && b ≤ 0x39) ||
    b == 0x5F || b == 0x2E || b == 0x2D || b == 0x7E || b == 0x2F

def hexDigitUpper (n : Nat) : Char :=
  if n < 10 then Char.ofNat (0x30 + n) else Char.ofNat (0x41 + (n - 10))

def quoteByte (b : Nat) : PyStr :=
  if alwaysSafeByte b then [Char.ofNat b]
  else ['%', hexDigitUpper (b / 16), hexDigitUpper (b % 16)]

/-- CPython `urllib.parse.quote(s)` with defaults (`safe="/"`): UTF-8
encode, then percent-escape every unsafe byte with uppercase hex. -/
def quote (s : PyStr) : PyStr := (s.flatMap utf8EncodeChar).flatMap quoteByte

/-- Result of `urlsplit`: the five URI components. -/
structure SplitResult where
  scheme : PyStr
  netloc : PyStr
  path : PyStr
  query : PyStr
  fragment : PyStr
deriving DecidableEq

def isSchemeChar (c : Char) : Bool :=
  isAsciiAlpha c || isAsciiDigit c || c == '+' || c == '-' || c == '.'

/-- Scheme extraction step of CPython `urlsplit`: split at the first `:`
when the part before it is a valid scheme (leading ASCII letter, then
letters, digits, `+-.`), lowercasing the scheme. -/
def splitScheme (url : PyStr) : PyStr × PyStr :=
  match url.findIdx? (fun c => c == ':') with
  | some i =>
    if 0 < i then
      match url with
      | [] => ([], url)
      | c :: _ =>
        if isAsciiAlpha c && (url.take i).all isSchemeChar then
          ((url.take i).map Char.toLower, url.drop (i + 1))
        else ([], url)
    else ([], url)
  | none => ([], url)

/-- CPython `_splitnetloc(url, 2)`: the authority runs to the first
`/`, `?` or `#` after the leading `//`. -/
def splitNetloc2 (url : PyStr) : PyStr × PyStr :=
  let after := url.drop 2
  let i := after.findIdx (fun c => c == '/' || c == '?' || c == '#')
  (after.take i, after.drop i)

/-- Split at the first occurrence of `ch`, if any. -/
def splitOnFirst (ch : Char) (url : PyStr) : PyStr × Option PyStr :=
  match url.findIdx? (fun c => c == ch) with
  | some i => (url.take i, some (url.drop (i + 1)))
  | none => (url, none)

/-- CPython 3.11 `urlsplit` (str input, default arguments): remove the
WHATWG-unsafe bytes tab/CR/LF, take the scheme, the `//`-authority, then
split off fragment and query.  `none` models a raised `ValueError`.  The
model is conservative on two authority checks CPython performs: a
bracketed (IPv6) authority and a non-ASCII authority are both modelled as
rejected, while CPython rejects only ill-bracketed ones resp. those whose
NFKC normalization introduces delimiters; theorems below therefore
quantify over URIs with plain ASCII, bracket-free authorities, which
covers every URI the tool is designed for. -/
def urlsplit (input : PyStr) : Option SplitResult :=
  let url0 := input.filter (fun c => !(c == '\t' || c == '\r' || c == '\n'))
  let sp := splitScheme url0
  let scheme := sp.fst
  let url1 := sp.snd
  let np :=
    if url1.take 2 = "//".data then splitNetloc2 url1 else ([], url1)
  let netloc := np.fst
  let url2 := np.snd
  if netloc.contains '[' != netloc.contains ']' then none
  else if !(netloc.all isAsciiChar) then none
  else
    let fp := splitOnFirst '#' url2
    let url3 := fp.fst
    let fragment := (fp.snd).getD []
    let qp := splitOnFirst '?' url3
    let url4 := qp.fst
    let query := (qp.snd).getD []
    some (SplitResult.mk scheme netloc url4 query fragment)

/-- The `uses_netloc` scheme list of CPython `urllib.parse`. -/
def uses_netloc : List PyStr :=
  [[], "ftp".data, "http".data, "gopher".data, "nntp".data, "telnet".data,
    "imap".data, "wais".data, "file".data, "mms".data, "https".data,
    "shttp".data, "snews".data, "prospero".data, "rtsp".data, "rtspu".data,
    "rsync".data, "svn".data, "svn+ssh".data, "sftp".data, "nfs".data,
    "git".data, "git+ssh".data, "ws".data, "wss".data]

/-- CPython 3.11 `urlunsplit`: reassemble the five components, re-adding
the `//` authority marker when there is an authority or the scheme
conventionally uses one (`file` does), and dropping empty-query and
empty-fragment delimiters. -/
def urlunsplit (r : SplitResult) : PyStr :=
  let url0 := r.path
  let url1 :=
    if r.netloc ≠ [] ∨ (r.scheme ≠ [] ∧ r.scheme ∈ uses_netloc ∧ url0.take 2 ≠ "//".data) then
      "//".data ++ r.netloc ++
        (if url0 ≠ [] ∧ url0.take 1 ≠ "/".data then '/' :: url0 else url0)
    else url0
  let url2 := if r.scheme ≠ [] then r.scheme ++ ':' :: url1 else url1
  let url3 := if r.query ≠ [] then url2 ++ '?' :: r.query else url2
  if r.fragment ≠ [] then url3 ++ '#' :: r.fragment else url3

/-- Text printed by `file_exists` when the path is missing
(src/pitivi_mover.py line 82). -/
def warnMsg (path : PyStr) : PyStr :=
  "Warning: ".data ++ path ++ " does not exist; skipping.".data

/-- The `file_exists` helper (src lines 77 to 82): returns whether the
path exists together with the warning it prints when it does not (the
Python function returns `None`, falsy, in that case). -/
def file_exists (fs : PyStr → Bool) (path : PyStr) : Bool × List PyStr :=
  if fs path then (true, []) else (false, [warnMsg path])

/-- The `update_uri` closure (src lines 60 to 75) over the filesystem
oracle `fs` and the fragments `old_path`, `new_path`: split the URI; for
a `file` scheme, percent-decode the path, replace the first occurrence of
`old_path` by `new_path`, keep the substituted (re-quoted) path only when
it exists, and reassemble with `urlunsplit`; other schemes are returned
verbatim.  The result pairs the returned string with the warnings
printed; `none` models a `ValueError` escaping from `urlsplit`. -/
def update_uri (fs : PyStr → Bool) (old_path new_path uri_str : PyStr) :
    Option (PyStr × List PyStr) :=
  match urlsplit uri_str with
  | none => none
  | some uri =>
    if uri.scheme = "file".data then
      let path := replaceFirst (unquote uri.path) old_path new_path
      let ex := file_exists fs path
      if ex.fst then
        some (urlunsplit (SplitResult.mk uri.scheme uri.netloc (quote path) uri.query uri.fragment), ex.snd)
      else
        some (urlunsplit uri, ex.snd)
    else
      some (uri_str, [])

/-! ## XML document model and `update_paths` -/

/-- A parsed XML element: tag, attribute dictionary (insertion order,
unique keys, as CPython dicts), text content and child elements.  The
document handed to `update_paths` is the root element of the tree. -/
inductive XTree where
  | node (tag : PyStr) (attrib : List Attr) (text : Option PyStr) (children : List XTree)

def XTree.tag : XTree → PyStr
  | .node tg _ _ _ => tg

def XTree.attrib : XTree → List Attr
  | .node _ a _ _ => a

def XTree.text : XTree → Option PyStr
  | .node _ _ tx _ => tx

def XTree.children : XTree → List XTree
  | .node _ _ _ cs => cs

/-- Python dict lookup `d.get(k)` on an attribute list. -/
def lookupAttr (k : PyStr) : List Attr → Option PyStr
  | [] => none
  | (k2, v) :: rest => if k2 = k then some v else lookupAttr k rest

/-- Python dict assignment `d[k] = v`: update the existing entry in
place (attribute dictionaries have unique keys), or append when the key
is absent. -/
def setAttr (k v : PyStr) : List Attr → List Attr
  | [] => [(k, v)]
  | (k2, v2) :: rest => if k2 = k then (k, v) :: rest else (k2, v2) :: setAttr k v rest

/-- Faults that escape `update_paths`: a `KeyError` from a missing
required attribute, or a `ValueError` from `urlsplit`. -/
inductive PyErr where
  | keyError (k : PyStr)
  | valueError
deriving DecidableEq

/-- Body of the asset loop (src lines 85 to 91) for one asset element:
read and rewrite the required `id` attribute (a missing `id` raises
`KeyError`), then rewrite `proxy-id` exactly when `asset.get("proxy-id")`
is truthy, i.e. present and non-empty. -/
def updateAssetAttrs (fs : PyStr → Bool) (old new : PyStr) (attrib : List Attr) :
    Except PyErr (List Attr × List PyStr) :=
  match lookupAttr ("id").data attrib with
  | none => Except.error (PyErr.keyError (("id").data))
  | some idv =>
    match update_uri fs old new idv with
    | none => Except.error PyErr.valueError
    | some (idv2, w1) =>
      let attrib1 := setAttr ("id").data idv2 attrib
      match lookupAttr ("proxy-id").data attrib1 with
      | none => Except.ok (attrib1, w1)
      | some pv =>
        if pv = [] then Except.ok (attrib1, w1)
        else
          match update_uri fs old new pv with
          | none => Except.error PyErr.valueError
          | some (pv2, w2) => Except.ok (setAttr ("proxy-id").data pv2 attrib1, w1 ++ w2)

/-- Body of the clip loop (src lines 94 to 96) for one clip element:
read and rewrite the required `asset-id` attribute. -/
def updateClipAttrs (fs : PyStr → Bool) (old new : PyStr) (attrib : List Attr) :
    Except PyErr (List Attr × List PyStr) :=
  match lookupAttr ("asset-id").data attrib with
  | none => Except.error (PyErr.keyError (("asset-id").data))
  | some v =>
    match update_uri fs old new v with
    | none => Except.error PyErr.valueError
    | some (v2, w) => Except.ok (setAttr ("asset-id").data v2 attrib, w)

mutual
/-- The asset loop of `update_paths` applied to a subtree whose root is a
candidate match of `findall(".//asset")`: elements are visited in
document order (an element before its descendants), and the first fault
aborts the traversal, as an exception aborts the Python loop. -/
def assetPass (fs : PyStr → Bool) (old new : PyStr) : XTree → Except PyErr (XTree × List PyStr)
  | XTree.node tag attrib text cs =>
    match (if tag = ("asset").data then updateAssetAttrs fs old new attrib else Except.ok (attrib, [])) with
    | Except.error e => Except.error e
    | Except.ok (attrib2, w1) =>
      match assetPassList fs old new cs with
      | Except.error e => Except.error e
      | Except.ok (cs2, w2) => Except.ok (XTree.node tag attrib2 text cs2, w1 ++ w2)

def assetPassList (fs : PyStr → Bool) (old new : PyStr) :
    List XTree → Except PyErr (List XTree × List PyStr)
  | [] => Except.ok ([], [])
  | t :: ts =>
    match assetPass fs old new t with
    | Except.error e => Except.error e
    | Except.ok (t2, w1) =>
      match assetPassList fs old new ts with
      | Except.error e => Except.error e
      | Except.ok (ts2, w2) => Except.ok (t2 :: ts2, w1 ++ w2)
end

mutual
/-- The clip loop of `update_paths`, analogous to `assetPass`. -/
def clipPass (fs : PyStr → Bool) (old new : PyStr) : XTree → Except PyErr (XTree × List PyStr)
  | XTree.node tag attrib text cs =>
    match (if tag = ("clip").data then updateClipAttrs fs old new attrib else Except.ok (attrib, [])) with
    | Except.error e => Except.error e
    | Except.ok (attrib2, w1) =>
      match clipPassList fs old new cs with
      | Except.error e => Except.error e
      | Except.ok (cs2, w2) => Except.ok (XTree.node tag attrib2 text cs2, w1 ++ w2)

def clipPassList (fs : PyStr → Bool) (old new : PyStr) :
    List XTree → Except PyErr (List XTree × List PyStr)
  | [] => Except.ok ([], [])
  | t :: ts =>
    match clipPass fs old new t with
    | Except.error e => Except.error e
    | Except.ok (t2, w1) =>
      match clipPassList fs old new ts with
      | Except.error e => Except.error e
      | Except.ok (ts2, w2) => Except.ok (t2 :: ts2, w1 ++ w2)
end

/-- The `update_paths` function (src lines 55 to 96) on the root element
of the parsed tree: `findall(".//asset")` matches every proper
descendant of the root with tag `asset` (the root itself is never
matched), then the clip loop runs over the tree left by the asset loop.
The result pairs the rewritten tree with the warnings printed, and an
`Except.error` models the exception escaping `update_paths`. -/
def update_paths (fs : PyStr → Bool) (old new : PyStr) (tree : XTree) :
    Except PyErr (XTree × List PyStr) :=
  match tree with
  | XTree.node tag attrib text cs =>
    match assetPassList fs old new cs with
    | Except.error e => Except.error e
    | Except.ok (cs1, w1) =>
      match clipPassList fs old new cs1 with
      | Except.error e => Except.error e
      | Except.ok (cs2, w2) => Except.ok (XTree.node tag attrib text cs2, w1 ++ w2)

mutual
/-- All nodes of a subtree in document (preorder) order. -/
def allNodes : XTree → List XTree
  | XTree.node tag attrib text cs => XTree.node tag attrib text cs :: allNodesL cs

def allNodesL : List XTree → List XTree
  | [] => []
  | t :: ts => allNodes t ++ allNodesL ts
end

/-- The proper descendants of the root: the domain of
`findall(".//tag")` searches. -/
def descendantsOf : XTree → List XTree
  | XTree.node _ _ _ cs => allNodesL cs

/-- Attribute keys `update_paths` may rewrite on an element with the
given tag. -/
def allowedKeys (tg : PyStr) : List PyStr :=
  if tg = ("asset").data then [("id").data, ("proxy-id").data]
  else if tg = ("clip").data then [("asset-id").data]
  else []

/-- Keys the asset loop may rewrite. -/
def assetKeys (tg : PyStr) : List PyStr :=
  if tg = ("asset").data then [("id").data, ("proxy-id").data] else []

/-- Keys the clip loop may rewrite. -/
def clipKeys (tg : PyStr) : List PyStr :=
  if tg = ("clip").data then [("asset-id").data] else []

/-- Two attribute lists agree except possibly at values of keys in `ks`:
same length, same keys in the same order, equal values outside `ks`. -/
def agreeExcept (ks : List PyStr) : List Attr → List Attr → Bool
  | [], [] => true
  | (k, v) :: r, (k2, v2) :: r2 =>
    (k == k2) && (ks.contains k || v == v2) && agreeExcept ks r r2
  | _, _ => false

mutual
/-- Structural agreement of two trees except at attribute values of the
keys allowed for each tag: same shape, tags and text everywhere. -/
def treeRel (allow : PyStr → List PyStr) : XTree → XTree → Bool
  | XTree.node tg a tx cs, XTree.node tg2 a2 tx2 cs2 =>
    (tg == tg2) && (tx == tx2) && agreeExcept (allow tg) a a2 && treeRelList allow cs cs2

def treeRelList (allow : PyStr → List PyStr) : List XTree → List XTree → Bool
  | [], [] => true
  | t :: ts, t2 :: ts2 => treeRel allow t t2 && treeRelList allow ts ts2
  | _, _ => false
end

/-! ## Backup model (`backup_file`, src lines 39 to 52) -/

/-- A filesystem for the backup routine: a partial map from paths to
file contents. -/
abbrev FileSys := PyStr → Option PyStr

def backupPath (orig_path : PyStr) : PyStr := orig_path ++ (".original").data

/-- Message printed when the backup already exists (src line 48). -/
def skipMsg (orig_path : PyStr) : PyStr :=
  "Skipping backup of ".data ++ orig_path ++ " because ".data ++
    backupPath orig_path ++ " already exists.".data

/-- Message printed before moving the original (src line 50). -/
def moveMsg (orig_path : PyStr) : PyStr :=
  "Moving \"".data ++ orig_path ++ "\"\n    to \"".data ++ backupPath orig_path ++ "\"".data

/-- Effect of `shutil.move(orig_path, backup_path)` (src line 51) on the
filesystem, when the original has content `c`: the backup path now holds
`c` and the original is gone. -/
def backupMove (fs : FileSys) (orig_path c : PyStr) : FileSys :=
  fun q => if q = backupPath orig_path then some c else if q = orig_path then none else fs q

/-- Effect of the subsequent `shutil.copy2(backup_path, orig_path)`
(src line 52): the original path is restored from the backup. -/
def backupRestore (fs : FileSys) (orig_path c : PyStr) : FileSys :=
  fun q =>
    if q = orig_path then backupMove fs orig_path c (backupPath orig_path)
    else backupMove fs orig_path c q

/-- The `backup_file` function: if `orig_path + ".original"` exists, do
nothing but report the skip; otherwise move the original to the backup
path (`shutil.move`, raising if the source is missing, modelled by
`Except.error`) and copy it back (`shutil.copy2`).  Returns the new
filesystem and the messages printed. -/
def backup_file (fs : FileSys) (orig_path : PyStr) : Except Unit (FileSys × List PyStr) :=
  if (fs (backupPath orig_path)).isSome then
    Except.ok (fs, [skipMsg orig_path])
  else
    match fs orig_path with
    | none => Except.error ()
    | some c => Except.ok (backupRestore fs orig_path c, [moveMsg orig_path])

/-! ## Orchestrator step order (`main`, src lines 99 to 127) -/

/-- Observable steps of the per-file pipeline in `main`. -/
inductive MainEv where
  | parseEv (f : PyStr)
  | backupEv (f : PyStr)
  | rewriteEv (f : PyStr)
  | writeEv (f : PyStr)
deriving DecidableEq

/-- Steps executed for one discovered file, in source order:
`ElementTree.parse` (line 110), `backup_file` (line 113), `update_paths`
(line 123), `tree.write` (line 126). -/
def process_file_trace (f : PyStr) : List MainEv :=
  [MainEv.parseEv f] ++ [MainEv.backupEv f] ++ [MainEv.rewriteEv f] ++ [MainEv.writeEv f]

/-- The loop of `main` over the discovered files: each file is processed
to completion before the next one starts. -/
def main_trace : List PyStr → List MainEv
  | [] => []
  | f :: rest => process_file_trace f ++ main_trace rest

/-! ## Helper lemmas -/

/-- Each UTF-8 decoding step consumes at least one byte: justification
for running `utf8DecodeGo` with `fuel = l.length`. -/
theorem utf8Step_len (b : Nat) (rest : List Nat) :
    (utf8Step b rest).snd.length ≤ rest.length := by
  unfold utf8Step
  repeat' split
  all_goals simp_all
  all_goals omega

theorem leadsWith_iff (pat s : PyStr) : leadsWith pat s = true ↔ ∃ t, s = pat ++ t := by
  induction pat generalizing s with
  | nil => simp [leadsWith]
  | cons p ps ih =>
    cases s with
    | nil => simp [leadsWith]
    | cons c cs =>
      simp only [leadsWith, Bool.and_eq_true, beq_iff_eq, ih, List.cons_append,
        List.cons.injEq]
      constructor
      · rintro ⟨rfl, t, rfl⟩
        exact ⟨t, rfl, rfl⟩
      · rintro ⟨t, h1, h2⟩
        exact ⟨h1.symm, t, h2⟩

theorem leadsWith_self_append (pat t : PyStr) : leadsWith pat (pat ++ t) = true :=
  (leadsWith_iff pat _).mpr ⟨t, rfl⟩

theorem leadsWith_eq_drop {pat s : PyStr} (h : leadsWith pat s = true) :
    s = pat ++ s.drop pat.length := by
  obtain ⟨t, rfl⟩ := (leadsWith_iff pat s).mp h
  rw [List.drop_left]

/-- When the pattern does not occur, `str.replace(old, new, 1)` is the
identity. -/
theorem replaceFirst_no_occ {old s : PyStr} (new : PyStr) (h : containsSub old s = false) :
    replaceFirst s old new = s := by
  induction s with
  | nil =>
    cases old with
    | nil => simp [containsSub] at h
    | cons p ps => simp [replaceFirst, leadsWith]
  | cons c rest ih =>
    unfold containsSub at h
    rw [Bool.or_eq_false_iff] at h
    unfold replaceFirst
    rw [h.1]
    simp [ih h.2]

/-- When the pattern occurs, `str.replace(old, new, 1)` replaces exactly
the leftmost occurrence: the part before it and the part after it are
kept verbatim, and no occurrence starts strictly earlier. -/
theorem replaceFirst_first_occ {old s : PyStr} (new : PyStr) (hne : old ≠ [])
    (h : containsSub old s = true) :
    ∃ pre suf, s = pre ++ old ++ suf ∧ replaceFirst s old new = pre ++ new ++ suf ∧
      ∀ i < pre.length, leadsWith old (s.drop i) = false := by
  induction s with
  | nil =>
    unfold containsSub at h
    rw [List.isEmpty_iff] at h
    exact absurd h hne
  | cons c rest ih =>
    by_cases hl : leadsWith old (c :: rest) = true
    · refine ⟨[], (c :: rest).drop old.length, ?_, ?_, ?_⟩
      · simpa using leadsWith_eq_drop hl
      · unfold replaceFirst
        rw [hl]
        simp
      · intro i hi
        simp at hi
    · have hrest : containsSub old rest = true := by
        unfold containsSub at h
        rcases Bool.or_eq_true_iff.mp h with h1 | h2
        · exact absurd h1 hl
        · exact h2
      obtain ⟨pre1, suf1, he, hrf, hmin⟩ := ih hrest
      refine ⟨c :: pre1, suf1, by simp [← he], ?_, ?_⟩
      · unfold replaceFirst
        rw [Bool.not_eq_true] at hl
        rw [hl]
        simp [hrf]
      · intro i hi
        cases i with
        | zero =>
          rw [Bool.not_eq_true] at hl
          simpa using hl
        | succ j =>
          have hj : j < pre1.length := by
            simp only [List.length_cons] at hi
            omega
          simpa [List.drop_succ_cons] using hmin j hj

/-- Fuel irrelevance for `countOccGo`: any fuel bounding the string
length computes the same count. -/
theorem countOccGo_fuel (pat : PyStr) :
    ∀ (f1 : Nat) (s : PyStr) (f2 : Nat), s.length ≤ f1 → s.length ≤ f2 →
      countOccGo pat f1 s = countOccGo pat f2 s := by
  intro f1
  induction f1 with
  | zero =>
    intro s f2 h1 _
    have hs : s = [] := by
      cases s with
      | nil => rfl
      | cons c rest => simp at h1
    subst hs
    cases f2 <;> rfl
  | succ f ih =>
    intro s f2 h1 h2
    cases s with
    | nil => cases f2 <;> rfl
    | cons c rest =>
      cases f2 with
      | zero => simp at h2
      | succ g =>
        by_cases hp : pat = []
        · simp [countOccGo, hp]
        · have hlen : 0 < pat.length := List.length_pos.mpr hp
          simp only [List.length_cons] at h1 h2
          by_cases hl : leadsWith pat (c :: rest) = true
          · simp only [countOccGo, hp, if_false, hl, if_true]
            congr 1
            apply ih
            · simp only [List.length_drop, List.length_cons]
              omega
            · simp only [List.length_drop, List.length_cons]
              omega
          · rw [Bool.not_eq_true] at hl
            simp only [countOccGo, hp, if_false, hl, Bool.false_eq_true]
            apply ih <;> omega

/-- Unfolding equation for `countOcc` on a non-empty string and a
non-empty pattern. -/
theorem countOcc_cons {pat : PyStr} (hp : pat ≠ []) (c : Char) (rest : PyStr) :
    countOcc pat (c :: rest) =
      if leadsWith pat (c :: rest) then 1 + countOcc pat ((c :: rest).drop pat.length)
      else countOcc pat rest := by
  have hlen : 0 < pat.length := List.length_pos.mpr hp
  by_cases hl : leadsWith pat (c :: rest) = true
  · rw [if_pos hl]
    unfold countOcc
    simp only [List.length_cons, countOccGo, hp, if_false, hl, if_true]
    congr 1
    apply countOccGo_fuel
    · simp only [List.length_drop, List.length_cons]
      omega
    · simp only [List.length_drop, List.length_cons]
      omega
  · rw [if_neg hl]
    rw [Bool.not_eq_true] at hl
    unfold countOcc
    simp only [List.length_cons, countOccGo, hp, if_false, hl, Bool.false_eq_true]

theorem countOcc_eq_zero {old s : PyStr} (hne : old ≠ []) (h : containsSub old s = false) :
    countOcc old s = 0 := by
  induction s with
  | nil => simp [countOcc, countOccGo, hne]
  | cons c rest ih =>
    unfold containsSub at h
    rw [Bool.or_eq_false_iff] at h
    rw [countOcc_cons hne c rest, h.1]
    simpa using ih h.2

/-- Counting across the leftmost occurrence: if `old` first occurs right
after `pre`, the total count is one more than the count in the tail
`suf`. -/
theorem countOcc_split {old : PyStr} (hne : old ≠ []) :
    ∀ (pre suf : PyStr), (∀ i < pre.length, leadsWith old ((pre ++ old ++ suf).drop i) = false) →
      countOcc old (pre ++ old ++ suf) = 1 + countOcc old suf := by
  intro pre
  induction pre with
  | nil =>
    intro suf _
    cases old with
    | nil => exact absurd rfl hne
    | cons o os =>
      have hshape : ([] : PyStr) ++ (o :: os) ++ suf = o :: (os ++ suf) := by simp
      rw [hshape, countOcc_cons hne o (os ++ suf)]
      have hlw : leadsWith (o :: os) (o :: (os ++ suf)) = true :=
        leadsWith_self_append (o :: os) suf
      rw [if_pos hlw]
      have hdrop : (o :: (os ++ suf)).drop (o :: os).length = suf :=
        List.drop_left (o :: os) suf
      rw [hdrop]
  | cons c pre1 ih =>
    intro suf hmin
    have hshape : (c :: pre1) ++ old ++ suf = c :: (pre1 ++ old ++ suf) := by simp
    have h0 : leadsWith old (c :: (pre1 ++ old ++ suf)) = false := by
      have := hmin 0 (by simp)
      simpa [hshape] using this
    rw [hshape, countOcc_cons hne c _, h0]
    simp only [Bool.false_eq_true, if_false]
    apply ih suf
    intro i hi
    have := hmin (i + 1) (by simp only [List.length_cons]; omega)
    simpa [hshape, List.drop_succ_cons] using this

/-! ## Claim C2 -/

/-- Claim C2 (confirmed): for every URI string whose scheme component is
not `file`, `update_uri` returns the input string unchanged byte for
byte, with no warning and no percent-decoding/encoding round-trip. -/
theorem rewriteURI_nonfile_unchanged (fs : PyStr → Bool) (old new u : PyStr)
    (r : SplitResult) (hsplit : urlsplit u = some r)
    (hs : r.scheme ≠ ("file").data) :
    update_uri fs old new u = some (u, []) := by
  unfold update_uri
  rw [hsplit]
  simp [hs]

/-- Witness for C2 at the http URI of the spec scenario. -/
theorem rewriteURI_nonfile_unchanged_witness :
    (urlsplit (("http://example.com/a%20b").data) =
        some (SplitResult.mk (("http").data) (("example.com").data) (("/a%20b").data) [] []) ∧
      (SplitResult.mk (("http").data) (("example.com").data) (("/a%20b").data) [] []).scheme ≠ ("file").data) ∧
    update_uri (fun _ => false) (("old").data) (("new").data) (("http://example.com/a%20b").data) =
      some ((("http://example.com/a%20b").data), []) :=
  ⟨⟨by decide, by decide⟩,
    rewriteURI_nonfile_unchanged (fun _ => false) (("old").data) (("new").data)
      (("http://example.com/a%20b").data)
      (SplitResult.mk (("http").data) (("example.com").data) (("/a%20b").data) [] [])
      (by decide) (by decide)⟩

/-! ## Claim C1 -/

/-- Counterexample for C1 as stated: with a filesystem on which nothing
exists, `update_uri` on the file URI `file:/gone` returns `file:///gone`
(the `urlunsplit` of its split components, which re-adds the `//`
authority marker for the `file` scheme), which is not content-equal to
the original URI string, even though the warning is emitted. -/
theorem rewriteURI_missing_counterexample :
    update_uri (fun _ => false) (("old").data) (("new").data) (("file:/gone").data) =
      some ((("file:///gone").data), [warnMsg (("/gone").data)]) ∧
    ¬ (("file:///gone").data = (("file:/gone").data)) :=
  ⟨by decide, by decide⟩

/-- Claim C1 (amended): for every file-scheme URI whose substituted
decoded path does not exist, `update_uri` emits a warning identifying
the non-existent path and returns the URI reassembled by `urlunsplit`
from the unchanged split components of the input (the substitution is
discarded); the result preserves all five URI components but is only
content-equal to the input up to delimiter normalization. -/
theorem rewriteURI_missing_keeps_components (fs : PyStr → Bool) (old new u : PyStr)
    (r : SplitResult) (hsplit : urlsplit u = some r)
    (hs : r.scheme = ("file").data)
    (hmiss : fs (replaceFirst (unquote r.path) old new) = false) :
    update_uri fs old new u =
      some (urlunsplit r, [warnMsg (replaceFirst (unquote r.path) old new)]) := by
  unfold update_uri
  rw [hsplit]
  simp [hs, file_exists, hmiss]

/-- Witness for the amended C1 at a URI in `urlunsplit`-normal form,
where the returned string is content-equal to the input. -/
theorem rewriteURI_missing_keeps_components_witness :
    (urlsplit (("file:///gone").data) =
        some (SplitResult.mk (("file").data) [] (("/gone").data) [] []) ∧
      (fun (_ : PyStr) => false)
          (replaceFirst (unquote (("/gone").data)) (("old").data) (("new").data)) = false) ∧
    update_uri (fun _ => false) (("old").data) (("new").data) (("file:///gone").data) =
      some ((("file:///gone").data), [warnMsg (("/gone").data)]) := by
  refine ⟨⟨by decide, rfl⟩, ?_⟩
  have h := rewriteURI_missing_keeps_components (fun _ => false) (("old").data)
    (("new").data) (("file:///gone").data)
    (SplitResult.mk (("file").data) [] (("/gone").data) [] []) (by decide) rfl rfl
  exact h.trans (by decide)

/-! ## Claim C3 -/

/-- Claim C3 (confirmed): for every file-scheme URI whose percent-decoded
path contains the (non-empty, per the documented input contract) fragment
`old` at least twice, the substitution performed by `update_uri` is a
single, first-occurrence, case-sensitive replacement: the decoded path
splits as `pre ++ old ++ suf` with no occurrence of `old` starting
earlier than `pre.length`, the substituted path is `pre ++ new ++ suf`
(so every later occurrence, all of which lie in `suf`, is kept intact,
one fewer than in the decoded path), and when the substituted path
exists this is the path re-encoded into the returned URI. -/
theorem rewriteURI_single_first_occurrence (fs : PyStr → Bool) (old new u : PyStr)
    (r : SplitResult) (hsplit : urlsplit u = some r)
    (hs : r.scheme = ("file").data) (hne : old ≠ [])
    (hcount : 2 ≤ countOcc old (unquote r.path)) :
    ∃ pre suf,
      unquote r.path = pre ++ old ++ suf ∧
      replaceFirst (unquote r.path) old new = pre ++ new ++ suf ∧
      (∀ i < pre.length, leadsWith old ((unquote r.path).drop i) = false) ∧
      countOcc old suf + 1 = countOcc old (unquote r.path) ∧
      (fs (pre ++ new ++ suf) = true →
        update_uri fs old new u =
          some (urlunsplit (SplitResult.mk r.scheme r.netloc (quote (pre ++ new ++ suf)) r.query r.fragment), [])) := by
  have hcont : containsSub old (unquote r.path) = true := by
    by_contra hc
    rw [Bool.not_eq_true] at hc
    have := countOcc_eq_zero hne hc
    omega
  obtain ⟨pre, suf, he, hrf, hmin⟩ := replaceFirst_first_occ new hne hcont
  have hmin2 : ∀ i < pre.length, leadsWith old ((pre ++ old ++ suf).drop i) = false := by
    intro i hi
    rw [← he]
    exact hmin i hi
  have hcnt : countOcc old (unquote r.path) = 1 + countOcc old suf := by
    rw [he]
    exact countOcc_split hne pre suf hmin2
  refine ⟨pre, suf, he, hrf, hmin, by omega, ?_⟩
  intro hfs
  rw [List.append_assoc] at hfs
  unfold update_uri
  rw [hsplit]
  simp [hs, file_exists, hrf, hfs]

/-- Witness for C3 on the decoded path `/old/old/f`, which contains
`old` twice. -/
theorem rewriteURI_single_first_occurrence_witness :
    (urlsplit (("file:///old/old/f").data) =
        some (SplitResult.mk (("file").data) [] (("/old/old/f").data) [] []) ∧
      (("old").data : PyStr) ≠ [] ∧
      2 ≤ countOcc (("old").data) (unquote (("/old/old/f").data))) ∧
    (∃ pre suf,
      unquote (("/old/old/f").data) = pre ++ ("old").data ++ suf ∧
      replaceFirst (unquote (("/old/old/f").data)) (("old").data) (("new").data) =
        pre ++ ("new").data ++ suf ∧
      (∀ i < pre.length, leadsWith (("old").data) ((unquote (("/old/old/f").data)).drop i) = false) ∧
      countOcc (("old").data) suf + 1 = countOcc (("old").data) (unquote (("/old/old/f").data)) ∧
      ((fun (_ : PyStr) => true) (pre ++ ("new").data ++ suf) = true →
        update_uri (fun _ => true) (("old").data) (("new").data) (("file:///old/old/f").data) =
          some (urlunsplit (SplitResult.mk (("file").data) []
            (quote (pre ++ ("new").data ++ suf)) [] []), []))) :=
  ⟨⟨by decide, by decide, by decide⟩,
    rewriteURI_single_first_occurrence (fun _ => true) (("old").data) (("new").data)
      (("file:///old/old/f").data)
      (SplitResult.mk (("file").data) [] (("/old/old/f").data) [] [])
      (by decide) rfl (by decide) (by decide)⟩

/-! ## Claim C8 -/

/-- Claim C8 (confirmed): for every file-scheme URI whose decoded path
does not contain the old fragment, `update_uri` does not short-circuit:
the unchanged decoded path is still checked against the filesystem, and
when it exists the URI is reconstructed with the re-encoded path
`quote (unquote path)`, so the output may differ from the input in
percent-encoding normalization (see the witness, where `%41` becomes
`A`) even though no path characters changed. -/
theorem rewriteURI_noop_still_reencodes (fs : PyStr → Bool) (old new u : PyStr)
    (r : SplitResult) (hsplit : urlsplit u = some r)
    (hs : r.scheme = ("file").data)
    (hnoc : containsSub old (unquote r.path) = false)
    (hex : fs (unquote r.path) = true) :
    update_uri fs old new u =
      some (urlunsplit (SplitResult.mk r.scheme r.netloc (quote (unquote r.path)) r.query r.fragment), []) := by
  have hrf := replaceFirst_no_occ (s := unquote r.path) new hnoc
  unfold update_uri
  rw [hsplit]
  simp [hs, file_exists, hrf, hex]

/-- Witness for C8: the fragment `zz` does not occur in the decoded path
`/Ab` of `file:///%41b`, the path exists, and the returned URI
`file:///Ab` differs from the input only in percent-encoding
normalization. -/
theorem rewriteURI_noop_still_reencodes_witness :
    (urlsplit (("file:///%41b").data) =
        some (SplitResult.mk (("file").data) [] (("/%41b").data) [] []) ∧
      containsSub (("zz").data) (unquote (("/%41b").data)) = false) ∧
    update_uri (fun _ => true) (("zz").data) (("new").data) (("file:///%41b").data) =
      some ((("file:///Ab").data), []) ∧
    ¬ (("file:///Ab").data = (("file:///%41b").data)) := by
  refine ⟨⟨by decide, by decide⟩, ?_, by decide⟩
  have h := rewriteURI_noop_still_reencodes (fun _ => true) (("zz").data) (("new").data)
    (("file:///%41b").data)
    (SplitResult.mk (("file").data) [] (("/%41b").data) [] []) (by decide) rfl (by decide) rfl
  exact h.trans (by decide)

/-! ## Backup lemmas and claims C4, C7 -/

theorem backupPath_ne (p : PyStr) : backupPath p ≠ p := by
  intro h
  have hlen := congrArg List.length h
  have h9 : ((".original").data).length = 9 := rfl
  simp only [backupPath, List.length_append, h9] at hlen
  omega

theorem backupRestore_orig (fs : FileSys) (p c : PyStr) :
    backupRestore fs p c p = some c := by
  simp [backupRestore, backupMove]

theorem backupRestore_backup (fs : FileSys) (p c : PyStr) :
    backupRestore fs p c (backupPath p) = some c := by
  simp [backupRestore, backupMove, backupPath_ne p]

/-- Claim C7 (confirmed): when the backup does not yet exist and the
original file has content `c`, `backup_file` succeeds, reports the move,
and afterwards both the original path and the backup path exist with the
identical content `c`. -/
theorem ensureBackup_creates (fs : FileSys) (p c : PyStr)
    (hnb : fs (backupPath p) = none) (hc : fs p = some c) :
    ∃ fs2, backup_file fs p = Except.ok (fs2, [moveMsg p]) ∧
      fs2 p = some c ∧ fs2 (backupPath p) = some c := by
  refine ⟨backupRestore fs p c, ?_, backupRestore_orig fs p c, backupRestore_backup fs p c⟩
  unfold backup_file
  rw [hnb, hc]
  simp

/-- Witness for C7 on a one-file filesystem. -/
theorem ensureBackup_creates_witness :
    ((fun q => if q = ("a").data then some (("x").data) else none)
        (backupPath (("a").data)) = (none : Option PyStr) ∧
      (fun q => if q = ("a").data then some (("x").data) else none) (("a").data) =
        some (("x").data)) ∧
    ∃ fs2,
      backup_file (fun q => if q = ("a").data then some (("x").data) else none) (("a").data) =
        Except.ok (fs2, [moveMsg (("a").data)]) ∧
      fs2 (("a").data) = some (("x").data) ∧
      fs2 (backupPath (("a").data)) = some (("x").data) :=
  ⟨⟨by decide, by decide⟩,
    ensureBackup_creates (fun q => if q = ("a").data then some (("x").data) else none)
      (("a").data) (("x").data) (by decide) (by decide)⟩

/-- Claim C4 (confirmed): after any successful `backup_file` run, a
second run on the same path is a filesystem no-op that only reports the
skip, so at most one backup file ever exists and an existing backup is
never overwritten; moreover, when the first run actually created the
backup (it did not exist before), the backup content equals the content
the original path has after the first run. -/
theorem ensureBackup_idempotent (fs : FileSys) (p : PyStr) (fs1 : FileSys)
    (log : List PyStr) (h : backup_file fs p = Except.ok (fs1, log)) :
    backup_file fs1 p = Except.ok (fs1, [skipMsg p]) ∧
      (fs (backupPath p) = none → fs1 (backupPath p) = fs1 p) := by
  unfold backup_file at h
  split at h
  case isTrue hb =>
    rw [Except.ok.injEq, Prod.mk.injEq] at h
    obtain ⟨h1, h2⟩ := h
    subst h1
    constructor
    · unfold backup_file
      rw [if_pos hb]
    · intro h0
      rw [h0] at hb
      simp at hb
  case isFalse hb =>
    split at h
    case h_1 => exact Except.noConfusion h
    case h_2 c hc =>
      rw [Except.ok.injEq, Prod.mk.injEq] at h
      obtain ⟨h1, h2⟩ := h
      have hb1 : fs1 (backupPath p) = some c := by
        rw [← h1]
        exact backupRestore_backup fs p c
      have hp1 : fs1 p = some c := by
        rw [← h1]
        exact backupRestore_orig fs p c
      constructor
      · unfold backup_file
        rw [hb1]
        simp
      · intro _
        rw [hb1, hp1]

/-- Witness for C4: the second run after a creating first run is a
reported no-op, and the backup matches the original. -/
theorem ensureBackup_idempotent_witness :
    backup_file (fun q => if q = ("a").data then some (("x").data) else none) (("a").data) =
      Except.ok
        (backupRestore (fun q => if q = ("a").data then some (("x").data) else none)
          (("a").data) (("x").data), [moveMsg (("a").data)]) ∧
    backup_file
        (backupRestore (fun q => if q = ("a").data then some (("x").data) else none)
          (("a").data) (("x").data)) (("a").data) =
      Except.ok
        (backupRestore (fun q => if q = ("a").data then some (("x").data) else none)
          (("a").data) (("x").data), [skipMsg (("a").data)]) ∧
    (backupRestore (fun q => if q = ("a").data then some (("x").data) else none)
        (("a").data) (("x").data)) (backupPath (("a").data)) =
      (backupRestore (fun q => if q = ("a").data then some (("x").data) else none)
        (("a").data) (("x").data)) (("a").data) := by
  have h := ensureBackup_idempotent
    (fun q => if q = ("a").data then some (("x").data) else none) (("a").data)
    (backupRestore (fun q => if q = ("a").data then some (("x").data) else none)
      (("a").data) (("x").data)) [moveMsg (("a").data)] rfl
  exact ⟨rfl, h.1, h.2 (by decide)⟩

/-! ## Claim C6 -/

/-- Counterexample for C6 as stated: on a singleton file list the first
step executed is `ElementTree.parse` (src line 110), not
`backup_file` (src line 113), so the claimed order, backup before parse,
does not hold. -/
theorem orchestrator_order_counterexample :
    main_trace [("a.xges").data] =
      [MainEv.parseEv (("a.xges").data), MainEv.backupEv (("a.xges").data),
        MainEv.rewriteEv (("a.xges").data), MainEv.writeEv (("a.xges").data)] ∧
    (main_trace [("a.xges").data]).head? = some (MainEv.parseEv (("a.xges").data)) ∧
    MainEv.parseEv (("a.xges").data) ≠ MainEv.backupEv (("a.xges").data) := by
  decide

/-- Claim C6 (amended): for each discovered project file the orchestrator
executes parse first, then backup, then rewrite, then serialize, in that
order, completing all four steps for one file before starting the next
file. -/
theorem orchestrator_order (files : List PyStr) :
    main_trace files = files.flatMap process_file_trace ∧
    ∀ f, process_file_trace f =
      [MainEv.parseEv f, MainEv.backupEv f, MainEv.rewriteEv f, MainEv.writeEv f] := by
  constructor
  · induction files with
    | nil => rfl
    | cons f rest ih =>
      simp only [main_trace, List.flatMap_cons, ih]
  · intro f
    rfl

/-! ## Attribute and tree agreement lemmas -/

theorem agreeExcept_refl (ks : List PyStr) (a : List Attr) : agreeExcept ks a a = true := by
  induction a with
  | nil => rfl
  | cons kv r ih =>
    obtain ⟨k, v⟩ := kv
    simp [agreeExcept, ih]

theorem agreeExcept_nil_eq : ∀ (a b : List Attr), agreeExcept [] a b = true → a = b := by
  intro a
  induction a with
  | nil =>
    intro b h
    cases b with
    | nil => rfl
    | cons kv r => simp [agreeExcept] at h
  | cons kv r ih =>
    intro b h
    obtain ⟨k, v⟩ := kv
    cases b with
    | nil => simp [agreeExcept] at h
    | cons kv2 r2 =>
      obtain ⟨k2, v2⟩ := kv2
      simp only [agreeExcept, List.contains_nil, Bool.false_or, Bool.and_eq_true,
        beq_iff_eq] at h
      obtain ⟨⟨h1, h2⟩, h3⟩ := h
      rw [h1, h2, ih r2 h3]

theorem agreeExcept_set (ks : List PyStr) (k v : PyStr) :
    ∀ (a : List Attr), ks.contains k = true → (lookupAttr k a).isSome →
      agreeExcept ks a (setAttr k v a) = true := by
  intro a
  induction a with
  | nil =>
    intro _ hsome
    simp [lookupAttr] at hsome
  | cons kv r ih =>
    intro hk hsome
    obtain ⟨k2, v2⟩ := kv
    by_cases he : k2 = k
    · subst he
      simp only [setAttr, if_pos rfl, agreeExcept, beq_self_eq_true, hk, Bool.true_or,
        Bool.true_and]
      exact agreeExcept_refl ks r
    · simp only [lookupAttr, if_neg he] at hsome
      simp only [setAttr, if_neg he, agreeExcept, beq_self_eq_true, Bool.or_true,
        Bool.true_and]
      exact ih hk hsome

theorem agreeExcept_trans (ks1 ks2 ks : List PyStr)
    (hsub1 : ∀ k, ks1.contains k = true → ks.contains k = true)
    (hsub2 : ∀ k, ks2.contains k = true → ks.contains k = true) :
    ∀ (a b c : List Attr), agreeExcept ks1 a b = true → agreeExcept ks2 b c = true →
      agreeExcept ks a c = true := by
  intro a
  induction a with
  | nil =>
    intro b c h1 h2
    cases b with
    | nil =>
      cases c with
      | nil => rfl
      | cons kv r => simp [agreeExcept] at h2
    | cons kv r => simp [agreeExcept] at h1
  | cons kv r ih =>
    intro b c h1 h2
    obtain ⟨k, v⟩ := kv
    cases b with
    | nil => simp [agreeExcept] at h1
    | cons kv2 r2 =>
      obtain ⟨k2, v2⟩ := kv2
      cases c with
      | nil => simp [agreeExcept] at h2
      | cons kv3 r3 =>
        obtain ⟨k3, v3⟩ := kv3
        simp only [agreeExcept, Bool.and_eq_true, beq_iff_eq, Bool.or_eq_true] at h1 h2
        obtain ⟨⟨hk12, hv12⟩, hr12⟩ := h1
        obtain ⟨⟨hk23, hv23⟩, hr23⟩ := h2
        subst hk12
        subst hk23
        simp only [agreeExcept, beq_self_eq_true, Bool.true_and, Bool.and_eq_true,
          Bool.or_eq_true]
        refine ⟨?_, ih r2 r3 hr12 hr23⟩
        by_cases hin : ks.contains k = true
        · exact Or.inl hin
        · right
          have hv12e : v = v2 := by
            rcases hv12 with h | h
            · exact absurd (hsub1 k h) hin
            · exact h
          have hv23e : v2 = v3 := by
            rcases hv23 with h | h
            · exact absurd (hsub2 k h) hin
            · exact h
          rw [beq_iff_eq]
          exact hv12e.trans hv23e

mutual
theorem treeRel_refl (allow : PyStr → List PyStr) :
    ∀ (t : XTree), treeRel allow t t = true
  | XTree.node tg a tx cs => by
    simp only [treeRel, beq_self_eq_true, Bool.true_and, Bool.and_eq_true]
    exact ⟨agreeExcept_refl (allow tg) a, treeRelList_refl allow cs⟩

theorem treeRelList_refl (allow : PyStr → List PyStr) :
    ∀ (cs : List XTree), treeRelList allow cs cs = true
  | [] => rfl
  | t :: ts => by
    simp only [treeRelList, Bool.and_eq_true]
    exact ⟨treeRel_refl allow t, treeRelList_refl allow ts⟩
end

mutual
theorem treeRel_trans (allow1 allow2 allow : PyStr → List PyStr)
    (hsub1 : ∀ tg k, (allow1 tg).contains k = true → (allow tg).contains k = true)
    (hsub2 : ∀ tg k, (allow2 tg).contains k = true → (allow tg).contains k = true) :
    ∀ (t u v : XTree), treeRel allow1 t u = true → treeRel allow2 u v = true →
      treeRel allow t v = true
  | XTree.node tg a tx cs, XTree.node tg2 a2 tx2 cs2, XTree.node tg3 a3 tx3 cs3 => by
    intro h1 h2
    simp only [treeRel, Bool.and_eq_true, beq_iff_eq] at h1 h2
    obtain ⟨⟨⟨htg12, htx12⟩, ha12⟩, hl12⟩ := h1
    obtain ⟨⟨⟨htg23, htx23⟩, ha23⟩, hl23⟩ := h2
    subst htg12
    subst htg23
    subst htx12
    subst htx23
    simp only [treeRel, beq_self_eq_true, Bool.true_and, Bool.and_eq_true]
    exact ⟨agreeExcept_trans (allow1 tg) (allow2 tg) (allow tg) (hsub1 tg) (hsub2 tg)
        a a2 a3 ha12 ha23,
      treeRelList_trans allow1 allow2 allow hsub1 hsub2 cs cs2 cs3 hl12 hl23⟩

theorem treeRelList_trans (allow1 allow2 allow : PyStr → List PyStr)
    (hsub1 : ∀ tg k, (allow1 tg).contains k = true → (allow tg).contains k = true)
    (hsub2 : ∀ tg k, (allow2 tg).contains k = true → (allow tg).contains k = true) :
    ∀ (cs cs2 cs3 : List XTree), treeRelList allow1 cs cs2 = true →
      treeRelList allow2 cs2 cs3 = true → treeRelList allow cs cs3 = true
  | [], cs2, cs3 => by
    intro h1 h2
    cases cs2 with
    | nil =>
      cases cs3 with
      | nil => rfl
      | cons u us => simp [treeRelList] at h2
    | cons u us => simp [treeRelList] at h1
  | t :: ts, cs2, cs3 => by
    intro h1 h2
    cases cs2 with
    | nil => simp [treeRelList] at h1
    | cons u us =>
      cases cs3 with
      | nil => simp [treeRelList] at h2
      | cons v vs =>
        simp only [treeRelList, Bool.and_eq_true] at h1 h2
        simp only [treeRelList, Bool.and_eq_true]
        exact ⟨treeRel_trans allow1 allow2 allow hsub1 hsub2 t u v h1.1 h2.1,
          treeRelList_trans allow1 allow2 allow hsub1 hsub2 ts us vs h1.2 h2.2⟩
end

theorem assetKeys_sub_allowed :
    ∀ tg k, (assetKeys tg).contains k = true → (allowedKeys tg).contains k = true := by
  intro tg k h
  unfold assetKeys at h
  unfold allowedKeys
  split at h
  next ht => rw [if_pos ht]; exact h
  next ht => simp at h

theorem clipKeys_sub_allowed :
    ∀ tg k, (clipKeys tg).contains k = true → (allowedKeys tg).contains k = true := by
  intro tg k h
  unfold clipKeys at h
  unfold allowedKeys
  split at h
  next ht =>
    rw [ht]
    rw [if_neg (by decide), if_pos rfl]
    exact h
  next ht => simp at h

theorem updateAssetAttrs_agree (fs : PyStr → Bool) (old new : PyStr)
    (a a2 : List Attr) (w : List PyStr)
    (h : updateAssetAttrs fs old new a = Except.ok (a2, w)) :
    agreeExcept [("id").data, ("proxy-id").data] a a2 = true := by
  unfold updateAssetAttrs at h
  rcases hid : lookupAttr ("id").data a with _ | idv
  · rw [hid] at h
    exact Except.noConfusion h
  · rw [hid] at h
    dsimp only at h
    rcases hupd : update_uri fs old new idv with _ | ⟨idv2, w1⟩
    · rw [hupd] at h
      exact Except.noConfusion h
    · rw [hupd] at h
      dsimp only at h
      have hagree1 : agreeExcept [("id").data, ("proxy-id").data] a
          (setAttr ("id").data idv2 a) = true := by
        apply agreeExcept_set
        · decide
        · rw [hid]
          rfl
      rcases hp : lookupAttr ("proxy-id").data (setAttr ("id").data idv2 a) with _ | pv
      · rw [hp] at h
        dsimp only at h
        rw [Except.ok.injEq, Prod.mk.injEq] at h
        rw [← h.1]
        exact hagree1
      · rw [hp] at h
        dsimp only at h
        by_cases hpv : pv = []
        · rw [if_pos hpv] at h
          rw [Except.ok.injEq, Prod.mk.injEq] at h
          rw [← h.1]
          exact hagree1
        · rw [if_neg hpv] at h
          rcases hupd2 : update_uri fs old new pv with _ | ⟨pv2, w2⟩
          · rw [hupd2] at h
            exact Except.noConfusion h
          · rw [hupd2] at h
            dsimp only at h
            rw [Except.ok.injEq, Prod.mk.injEq] at h
            have hagree2 : agreeExcept [("id").data, ("proxy-id").data]
                (setAttr ("id").data idv2 a)
                (setAttr ("proxy-id").data pv2 (setAttr ("id").data idv2 a)) = true := by
              apply agreeExcept_set
              · decide
              · rw [hp]
                rfl
            rw [← h.1]
            exact agreeExcept_trans _ _ _ (fun k hk => hk) (fun k hk => hk)
              _ _ _ hagree1 hagree2

theorem updateClipAttrs_agree (fs : PyStr → Bool) (old new : PyStr)
    (a a2 : List Attr) (w : List PyStr)
    (h : updateClipAttrs fs old new a = Except.ok (a2, w)) :
    agreeExcept [("asset-id").data] a a2 = true := by
  unfold updateClipAttrs at h
  rcases hv : lookupAttr ("asset-id").data a with _ | v
  · rw [hv] at h
    exact Except.noConfusion h
  · rw [hv] at h
    dsimp only at h
    rcases hupd : update_uri fs old new v with _ | ⟨v2, w1⟩
    · rw [hupd] at h
      exact Except.noConfusion h
    · rw [hupd] at h
      dsimp only at h
      rw [Except.ok.injEq, Prod.mk.injEq] at h
      rw [← h.1]
      apply agreeExcept_set
      · decide
      · rw [hv]
        rfl

mutual
theorem assetPass_rel (fs : PyStr → Bool) (old new : PyStr) :
    ∀ (t : XTree) (t2 : XTree) (w : List PyStr),
      assetPass fs old new t = Except.ok (t2, w) → treeRel assetKeys t t2 = true
  | XTree.node tg a tx cs, t2, w => by
    intro h
    unfold assetPass at h
    rcases hattr : (if tg = ("asset").data then updateAssetAttrs fs old new a
        else Except.ok (a, [])) with _ | ⟨attrib2, w1⟩
    · rw [hattr] at h
      exact Except.noConfusion h
    · rw [hattr] at h
      dsimp only at h
      rcases hcs : assetPassList fs old new cs with _ | ⟨cs2, w2⟩
      · rw [hcs] at h
        exact Except.noConfusion h
      · rw [hcs] at h
        dsimp only at h
        rw [Except.ok.injEq, Prod.mk.injEq] at h
        obtain ⟨h1, _⟩ := h
        subst h1
        simp only [treeRel, beq_self_eq_true, Bool.true_and, Bool.and_eq_true]
        constructor
        · by_cases htag : tg = ("asset").data
          · rw [if_pos htag] at hattr
            have := updateAssetAttrs_agree fs old new a attrib2 w1 hattr
            rw [assetKeys, if_pos htag]
            exact this
          · rw [if_neg htag] at hattr
            rw [Except.ok.injEq, Prod.mk.injEq] at hattr
            rw [← hattr.1]
            exact agreeExcept_refl _ a
        · exact assetPassList_rel fs old new cs cs2 w2 hcs

theorem assetPassList_rel (fs : PyStr → Bool) (old new : PyStr) :
    ∀ (cs : List XTree) (cs2 : List XTree) (w : List PyStr),
      assetPassList fs old new cs = Except.ok (cs2, w) → treeRelList assetKeys cs cs2 = true
  | [], cs2, w => by
    intro h
    unfold assetPassList at h
    rw [Except.ok.injEq, Prod.mk.injEq] at h
    rw [← h.1]
    rfl
  | t :: ts, cs2, w => by
    intro h
    unfold assetPassList at h
    rcases hpt : assetPass fs old new t with _ | ⟨t2, w1⟩
    · rw [hpt] at h
      exact Except.noConfusion h
    · rw [hpt] at h
      dsimp only at h
      rcases hts : assetPassList fs old new ts with _ | ⟨ts2, w2⟩
      · rw [hts] at h
        exact Except.noConfusion h
      · rw [hts] at h
        dsimp only at h
        rw [Except.ok.injEq, Prod.mk.injEq] at h
        obtain ⟨h1, _⟩ := h
        subst h1
        simp only [treeRelList, Bool.and_eq_true]
        exact ⟨assetPass_rel fs old new t t2 w1 hpt,
          assetPassList_rel fs old new ts ts2 w2 hts⟩
end

mutual
theorem clipPass_rel (fs : PyStr → Bool) (old new : PyStr) :
    ∀ (t : XTree) (t2 : XTree) (w : List PyStr),
      clipPass fs old new t = Except.ok (t2, w) → treeRel clipKeys t t2 = true
  | XTree.node tg a tx cs, t2, w => by
    intro h
    unfold clipPass at h
    rcases hattr : (if tg = ("clip").data then updateClipAttrs fs old new a
        else Except.ok (a, [])) with _ | ⟨attrib2, w1⟩
    · rw [hattr] at h
      exact Except.noConfusion h
    · rw [hattr] at h
      dsimp only at h
      rcases hcs : clipPassList fs old new cs with _ | ⟨cs2, w2⟩
      · rw [hcs] at h
        exact Except.noConfusion h
      · rw [hcs] at h
        dsimp only at h
        rw [Except.ok.injEq, Prod.mk.injEq] at h
        obtain ⟨h1, _⟩ := h
        subst h1
        simp only [treeRel, beq_self_eq_true, Bool.true_and, Bool.and_eq_true]
        constructor
        · by_cases htag : tg = ("clip").data
          · rw [if_pos htag] at hattr
            have := updateClipAttrs_agree fs old new a attrib2 w1 hattr
            rw [clipKeys, if_pos htag]
            exact this
          · rw [if_neg htag] at hattr
            rw [Except.ok.injEq, Prod.mk.injEq] at hattr
            rw [← hattr.1]
            exact agreeExcept_refl _ a
        · exact clipPassList_rel fs old new cs cs2 w2 hcs

theorem clipPassList_rel (fs : PyStr → Bool) (old new : PyStr) :
    ∀ (cs : List XTree) (cs2 : List XTree) (w : List PyStr),
      clipPassList fs old new cs = Except.ok (cs2, w) → treeRelList clipKeys cs cs2 = true
  | [], cs2, w => by
    intro h
    unfold clipPassList at h
    rw [Except.ok.injEq, Prod.mk.injEq] at h
    rw [← h.1]
    rfl
  | t :: ts, cs2, w => by
    intro h
    unfold clipPassList at h
    rcases hpt : clipPass fs old new t with _ | ⟨t2, w1⟩
    · rw [hpt] at h
      exact Except.noConfusion h
    · rw [hpt] at h
      dsimp only at h
      rcases hts : clipPassList fs old new ts with _ | ⟨ts2, w2⟩
      · rw [hts] at h
        exact Except.noConfusion h
      · rw [hts] at h
        dsimp only at h
        rw [Except.ok.injEq, Prod.mk.injEq] at h
        obtain ⟨h1, _⟩ := h
        subst h1
        simp only [treeRelList, Bool.and_eq_true]
        exact ⟨clipPass_rel fs old new t t2 w1 hpt,
          clipPassList_rel fs old new ts ts2 w2 hts⟩
end

/-! ## Claim C10 -/

/-- Claim C10 (confirmed): a successful `update_paths` run mutates at
most the `id` and `proxy-id` attribute values of `asset`-tagged elements
and the `asset-id` attribute value of `clip`-tagged elements; the tree
shape, every tag, every text node, every other attribute (keys, order
and values) and every attribute of other elements are unchanged. -/
theorem rewriteDocument_frame (fs : PyStr → Bool) (old new : PyStr)
    (t t2 : XTree) (w : List PyStr)
    (h : update_paths fs old new t = Except.ok (t2, w)) :
    treeRel allowedKeys t t2 = true := by
  obtain ⟨tg, a, tx, cs⟩ := t
  unfold update_paths at h
  dsimp only at h
  rcases h1 : assetPassList fs old new cs with _ | ⟨cs1, w1⟩
  · rw [h1] at h
    exact Except.noConfusion h
  · rw [h1] at h
    dsimp only at h
    rcases h2 : clipPassList fs old new cs1 with _ | ⟨cs2, w2⟩
    · rw [h2] at h
      exact Except.noConfusion h
    · rw [h2] at h
      dsimp only at h
      rw [Except.ok.injEq, Prod.mk.injEq] at h
      obtain ⟨hh, _⟩ := h
      subst hh
      simp only [treeRel, beq_self_eq_true, Bool.true_and, Bool.and_eq_true]
      refine ⟨agreeExcept_refl _ a, ?_⟩
      exact treeRelList_trans assetKeys clipKeys allowedKeys assetKeys_sub_allowed
        clipKeys_sub_allowed cs cs1 cs2 (assetPassList_rel fs old new cs cs1 w1 h1)
        (clipPassList_rel fs old new cs1 cs2 w2 h2)

/-- Witness for C10 on a two-child document. -/
theorem rewriteDocument_frame_witness :
    update_paths (fun _ => true) (("old").data) (("new").data)
        (XTree.node (("project").data) [((("k").data), (("v").data))] none
          [XTree.node (("asset").data)
              [((("id").data), (("file:///old/a").data)), ((("x").data), (("y").data))]
              (some (("txt").data)) [],
            XTree.node (("clip").data)
              [((("asset-id").data), (("file:///old/a").data))] none []]) =
      Except.ok
        (XTree.node (("project").data) [((("k").data), (("v").data))] none
          [XTree.node (("asset").data)
              [((("id").data), (("file:///new/a").data)), ((("x").data), (("y").data))]
              (some (("txt").data)) [],
            XTree.node (("clip").data)
              [((("asset-id").data), (("file:///new/a").data))] none []], []) ∧
    treeRel allowedKeys
        (XTree.node (("project").data) [((("k").data), (("v").data))] none
          [XTree.node (("asset").data)
              [((("id").data), (("file:///old/a").data)), ((("x").data), (("y").data))]
              (some (("txt").data)) [],
            XTree.node (("clip").data)
              [((("asset-id").data), (("file:///old/a").data))] none []])
        (XTree.node (("project").data) [((("k").data), (("v").data))] none
          [XTree.node (("asset").data)
              [((("id").data), (("file:///new/a").data)), ((("x").data), (("y").data))]
              (some (("txt").data)) [],
            XTree.node (("clip").data)
              [((("asset-id").data), (("file:///new/a").data))] none []]) = true := by
  refine ⟨rfl, ?_⟩
  exact rewriteDocument_frame (fun _ => true) (("old").data) (("new").data) _ _ [] rfl

/-! ## Missing-attribute lemmas for claim C5 -/

mutual
theorem assetPass_ids (fs : PyStr → Bool) (old new : PyStr) :
    ∀ (t t2 : XTree) (w : List PyStr), assetPass fs old new t = Except.ok (t2, w) →
      ∀ d ∈ allNodes t, d.tag = ("asset").data → lookupAttr ("id").data d.attrib ≠ none
  | XTree.node tg a tx cs, t2, w => by
    intro h d hd htag
    unfold assetPass at h
    rcases hattr : (if tg = ("asset").data then updateAssetAttrs fs old new a
        else Except.ok (a, [])) with _ | ⟨attrib2, w1⟩
    · rw [hattr] at h
      exact Except.noConfusion h
    · rw [hattr] at h
      dsimp only at h
      rcases hcs : assetPassList fs old new cs with _ | ⟨cs2, w2⟩
      · rw [hcs] at h
        exact Except.noConfusion h
      · unfold allNodes at hd
        rcases List.mem_cons.mp hd with rfl | hdm
        · have htag2 : tg = ("asset").data := htag
          rw [if_pos htag2] at hattr
          unfold updateAssetAttrs at hattr
          rcases hid : lookupAttr ("id").data a with _ | idv
          · rw [hid] at hattr
            exact Except.noConfusion hattr
          · intro hnone
            have hnone2 : lookupAttr ("id").data a = none := hnone
            rw [hid] at hnone2
            exact Option.noConfusion hnone2
        · exact assetPassList_ids fs old new cs cs2 w2 hcs d hdm htag

theorem assetPassList_ids (fs : PyStr → Bool) (old new : PyStr) :
    ∀ (cs cs2 : List XTree) (w : List PyStr),
      assetPassList fs old new cs = Except.ok (cs2, w) →
      ∀ d ∈ allNodesL cs, d.tag = ("asset").data → lookupAttr ("id").data d.attrib ≠ none
  | [], cs2, w => by
    intro _ d hd
    simp [allNodesL] at hd
  | t :: ts, cs2, w => by
    intro h d hd htag
    unfold assetPassList at h
    rcases hpt : assetPass fs old new t with _ | ⟨t2, w1⟩
    · rw [hpt] at h
      exact Except.noConfusion h
    · rw [hpt] at h
      dsimp only at h
      rcases hts : assetPassList fs old new ts with _ | ⟨ts2, w2⟩
      · rw [hts] at h
        exact Except.noConfusion h
      · unfold allNodesL at hd
        rcases List.mem_append.mp hd with h1 | h2
        · exact assetPass_ids fs old new t t2 w1 hpt d h1 htag
        · exact assetPassList_ids fs old new ts ts2 w2 hts d h2 htag
end

mutual
theorem clipPass_ids (fs : PyStr → Bool) (old new : PyStr) :
    ∀ (t t2 : XTree) (w : List PyStr), clipPass fs old new t = Except.ok (t2, w) →
      ∀ d ∈ allNodes t, d.tag = ("clip").data → lookupAttr ("asset-id").data d.attrib ≠ none
  | XTree.node tg a tx cs, t2, w => by
    intro h d hd htag
    unfold clipPass at h
    rcases hattr : (if tg = ("clip").data then updateClipAttrs fs old new a
        else Except.ok (a, [])) with _ | ⟨attrib2, w1⟩
    · rw [hattr] at h
      exact Except.noConfusion h
    · rw [hattr] at h
      dsimp only at h
      rcases hcs : clipPassList fs old new cs with _ | ⟨cs2, w2⟩
      · rw [hcs] at h
        exact Except.noConfusion h
      · unfold allNodes at hd
        rcases List.mem_cons.mp hd with rfl | hdm
        · have htag2 : tg = ("clip").data := htag
          rw [if_pos htag2] at hattr
          unfold updateClipAttrs at hattr
          rcases hv : lookupAttr ("asset-id").data a with _ | v
          · rw [hv] at hattr
            exact Except.noConfusion hattr
          · intro hnone
            have hnone2 : lookupAttr ("asset-id").data a = none := hnone
            rw [hv] at hnone2
            exact Option.noConfusion hnone2
        · exact clipPassList_ids fs old new cs cs2 w2 hcs d hdm htag

theorem clipPassList_ids (fs : PyStr → Bool) (old new : PyStr) :
    ∀ (cs cs2 : List XTree) (w : List PyStr),
      clipPassList fs old new cs = Except.ok (cs2, w) →
      ∀ d ∈ allNodesL cs, d.tag = ("clip").data → lookupAttr ("asset-id").data d.attrib ≠ none
  | [], cs2, w => by
    intro _ d hd
    simp [allNodesL] at hd
  | t :: ts, cs2, w => by
    intro h d hd htag
    unfold clipPassList at h
    rcases hpt : clipPass fs old new t with _ | ⟨t2, w1⟩
    · rw [hpt] at h
      exact Except.noConfusion h
    · rw [hpt] at h
      dsimp only at h
      rcases hts : clipPassList fs old new ts with _ | ⟨ts2, w2⟩
      · rw [hts] at h
        exact Except.noConfusion h
      · unfold allNodesL at hd
        rcases List.mem_append.mp hd with h1 | h2
        · exact clipPass_ids fs old new t t2 w1 hpt d h1 htag
        · exact clipPassList_ids fs old new ts ts2 w2 hts d h2 htag
end

mutual
theorem treeRel_transfer (allow : PyStr → List PyStr) :
    ∀ (t t2 : XTree), treeRel allow t t2 = true →
      ∀ d ∈ allNodes t, ∃ d2 ∈ allNodes t2, d2.tag = d.tag ∧
        agreeExcept (allow d.tag) d.attrib d2.attrib = true
  | XTree.node tg a tx cs, XTree.node tg2 a2 tx2 cs2 => by
    intro h d hd
    simp only [treeRel, Bool.and_eq_true, beq_iff_eq] at h
    obtain ⟨⟨⟨htg, htx⟩, ha⟩, hl⟩ := h
    subst htg
    subst htx
    unfold allNodes at hd
    rcases List.mem_cons.mp hd with rfl | hdm
    · refine ⟨XTree.node tg a2 tx cs2, ?_, rfl, ha⟩
      unfold allNodes
      exact List.mem_cons_self _ _
    · obtain ⟨d2, hd2, htag2, hag⟩ := treeRelList_transfer allow cs cs2 hl d hdm
      refine ⟨d2, ?_, htag2, hag⟩
      unfold allNodes
      exact List.mem_cons_of_mem _ hd2

theorem treeRelList_transfer (allow : PyStr → List PyStr) :
    ∀ (cs cs2 : List XTree), treeRelList allow cs cs2 = true →
      ∀ d ∈ allNodesL cs, ∃ d2 ∈ allNodesL cs2, d2.tag = d.tag ∧
        agreeExcept (allow d.tag) d.attrib d2.attrib = true
  | [], cs2 => by
    intro _ d hd
    simp [allNodesL] at hd
  | t :: ts, cs2 => by
    intro h d hd
    cases cs2 with
    | nil => simp [treeRelList] at h
    | cons u us =>
      simp only [treeRelList, Bool.and_eq_true] at h
      unfold allNodesL at hd
      rcases List.mem_append.mp hd with h1 | h2
      · obtain ⟨d2, hd2, ht, hagr⟩ := treeRel_transfer allow t u h.1 d h1
        refine ⟨d2, ?_, ht, hagr⟩
        unfold allNodesL
        exact List.mem_append_left _ hd2
      · obtain ⟨d2, hd2, ht, hagr⟩ := treeRelList_transfer allow ts us h.2 d h2
        refine ⟨d2, ?_, ht, hagr⟩
        unfold allNodesL
        exact List.mem_append_right _ hd2
end

/-! ## Claim C5 -/

/-- Claim C5 (confirmed): if any descendant asset element lacks the
required `id` attribute, or any descendant clip element lacks the
required `asset-id` attribute, `update_paths` does not recover: it never
returns successfully (the `KeyError` from the missing attribute, or an
earlier fault, propagates out of the rewrite); while a missing optional
`proxy-id` attribute is silently skipped, the asset is processed without
error and its other attributes are still rewritten. -/
theorem rewriteDocument_missing_required :
    (∀ (fs : PyStr → Bool) (old new : PyStr) (t : XTree),
      ((∃ d ∈ descendantsOf t, d.tag = ("asset").data ∧
          lookupAttr ("id").data d.attrib = none) ∨
       (∃ d ∈ descendantsOf t, d.tag = ("clip").data ∧
          lookupAttr ("asset-id").data d.attrib = none)) →
      ∀ res, update_paths fs old new t ≠ Except.ok res) ∧
    (∀ (fs : PyStr → Bool) (old new : PyStr) (a : List Attr) (idv idv2 : PyStr)
        (w1 : List PyStr),
      lookupAttr ("id").data a = some idv →
      update_uri fs old new idv = some (idv2, w1) →
      lookupAttr ("proxy-id").data (setAttr ("id").data idv2 a) = none →
      updateAssetAttrs fs old new a = Except.ok (setAttr ("id").data idv2 a, w1)) := by
  constructor
  · intro fs old new t hbad res h
    obtain ⟨tg, a, tx, cs⟩ := t
    unfold update_paths at h
    dsimp only at h
    rcases h1 : assetPassList fs old new cs with _ | ⟨cs1, w1⟩
    · rw [h1] at h
      exact Except.noConfusion h
    · rw [h1] at h
      dsimp only at h
      rcases h2 : clipPassList fs old new cs1 with _ | ⟨cs2, w2⟩
      · rw [h2] at h
        exact Except.noConfusion h
      · rcases hbad with ⟨d, hd, htag, hnone⟩ | ⟨d, hd, htag, hnone⟩
        · exact assetPassList_ids fs old new cs cs1 w1 h1 d hd htag hnone
        · have hrel := assetPassList_rel fs old new cs cs1 w1 h1
          obtain ⟨d2, hd2, htag2, hag⟩ := treeRelList_transfer assetKeys cs cs1 hrel d hd
          have hkeys : assetKeys d.tag = [] := by
            rw [htag]
            rfl
          rw [hkeys] at hag
          have hattr_eq : d.attrib = d2.attrib := agreeExcept_nil_eq _ _ hag
          have hnone2 : lookupAttr ("asset-id").data d2.attrib = none := by
            rw [← hattr_eq]
            exact hnone
          have htag3 : d2.tag = ("clip").data := by
            rw [htag2, htag]
          exact clipPassList_ids fs old new cs1 cs2 w2 h2 d2 hd2 htag3 hnone2
  · intro fs old new a idv idv2 w1 hid hupd hp
    unfold updateAssetAttrs
    rw [hid]
    dsimp only
    rw [hupd]
    dsimp only
    rw [hp]

/-- Witness for C5: a document whose only asset element has no
attributes at all makes the rewrite fail, while an asset with an `id`
and no `proxy-id` is processed without error. -/
theorem rewriteDocument_missing_required_witness :
    (∃ d ∈ descendantsOf (XTree.node (("project").data) [] none
        [XTree.node (("asset").data) [] none []]),
      d.tag = ("asset").data ∧ lookupAttr ("id").data d.attrib = none) ∧
    update_paths (fun _ => true) (("old").data) (("new").data)
        (XTree.node (("project").data) [] none [XTree.node (("asset").data) [] none []]) ≠
      Except.ok (XTree.node (("project").data) [] none
        [XTree.node (("asset").data) [] none []], []) ∧
    updateAssetAttrs (fun _ => true) (("old").data) (("new").data)
        [((("id").data), (("file:///o").data))] =
      Except.ok (setAttr ("id").data (("file:///o").data)
        [((("id").data), (("file:///o").data))], []) := by
  refine ⟨by decide, ?_, ?_⟩
  · exact rewriteDocument_missing_required.1 (fun _ => true) (("old").data) (("new").data)
      (XTree.node (("project").data) [] none [XTree.node (("asset").data) [] none []])
      (Or.inl (by decide))
      (XTree.node (("project").data) [] none [XTree.node (("asset").data) [] none []], [])
  · exact rewriteDocument_missing_required.2 (fun _ => true) (("old").data) (("new").data)
      [((("id").data), (("file:///o").data))] (("file:///o").data) (("file:///o").data) []
      (by decide) (by decide) (by decide)

/-! ## Claim C9 -/

/-- Claim C9 (confirmed): for an asset element, `update_paths` rewrites
the `id` attribute through `update_uri`, and rewrites `proxy-id` through
the same `update_uri` exactly when it is present and non-empty (an
empty or absent `proxy-id` is left alone).  The filesystem oracle `fs`
is universally quantified and unconstrained at the path substituted in
`id`, so the `proxy-id` rewrite applies independently of whether the
`id` substitution passed or failed its existence check; the witness
exhibits an `id` that fails the check while `proxy-id` is updated.  The
last conjunct places the per-element behaviour inside the asset loop of
the document rewrite. -/
theorem rewriteDocument_asset_attrs :
    (∀ (fs : PyStr → Bool) (old new : PyStr) (a : List Attr)
        (idv idv2 pv pv2 : PyStr) (w1 w2 : List PyStr),
      lookupAttr ("id").data a = some idv →
      update_uri fs old new idv = some (idv2, w1) →
      lookupAttr ("proxy-id").data (setAttr ("id").data idv2 a) = some pv →
      pv ≠ [] →
      update_uri fs old new pv = some (pv2, w2) →
      updateAssetAttrs fs old new a =
        Except.ok (setAttr ("proxy-id").data pv2 (setAttr ("id").data idv2 a), w1 ++ w2)) ∧
    (∀ (fs : PyStr → Bool) (old new : PyStr) (a : List Attr) (idv idv2 : PyStr)
        (w1 : List PyStr),
      lookupAttr ("id").data a = some idv →
      update_uri fs old new idv = some (idv2, w1) →
      lookupAttr ("proxy-id").data (setAttr ("id").data idv2 a) = some [] →
      updateAssetAttrs fs old new a = Except.ok (setAttr ("id").data idv2 a, w1)) ∧
    (∀ (fs : PyStr → Bool) (old new : PyStr) (a a2 : List Attr) (tx : Option PyStr)
        (cs cs2 : List XTree) (wa wc : List PyStr),
      updateAssetAttrs fs old new a = Except.ok (a2, wa) →
      assetPassList fs old new cs = Except.ok (cs2, wc) →
      assetPass fs old new (XTree.node (("asset").data) a tx cs) =
        Except.ok (XTree.node (("asset").data) a2 tx cs2, wa ++ wc)) := by
  refine ⟨?_, ?_, ?_⟩
  · intro fs old new a idv idv2 pv pv2 w1 w2 hid hupd hp hpv hupd2
    unfold updateAssetAttrs
    rw [hid]
    dsimp only
    rw [hupd]
    dsimp only
    rw [hp]
    dsimp only
    rw [if_neg hpv, hupd2]
  · intro fs old new a idv idv2 w1 hid hupd hp
    unfold updateAssetAttrs
    rw [hid]
    dsimp only
    rw [hupd]
    dsimp only
    rw [hp]
    dsimp only
    rw [if_pos rfl]
  · intro fs old new a a2 tx cs cs2 wa wc hattr hcs
    unfold assetPass
    rw [if_pos rfl, hattr]
    dsimp only
    rw [hcs]

/-- Witness for C9: the asset `id` fails its existence check (the
substituted path `/new/a` does not exist on the oracle) and is kept with
a warning, while the non-empty `proxy-id` passes its check and is
rewritten: the proxy update is independent of the id outcome. -/
theorem rewriteDocument_asset_attrs_witness :
    (lookupAttr ("id").data
        [((("id").data), (("file:///old/a").data)),
          ((("proxy-id").data), (("file:///old/p").data))] =
      some (("file:///old/a").data) ∧
    update_uri (fun p => p == ("/new/p").data) (("old").data) (("new").data)
        (("file:///old/a").data) =
      some ((("file:///old/a").data), [warnMsg (("/new/a").data)]) ∧
    lookupAttr ("proxy-id").data
        (setAttr ("id").data (("file:///old/a").data)
          [((("id").data), (("file:///old/a").data)),
            ((("proxy-id").data), (("file:///old/p").data))]) =
      some (("file:///old/p").data) ∧
    update_uri (fun p => p == ("/new/p").data) (("old").data) (("new").data)
        (("file:///old/p").data) =
      some ((("file:///new/p").data), [])) ∧
    updateAssetAttrs (fun p => p == ("/new/p").data) (("old").data) (("new").data)
        [((("id").data), (("file:///old/a").data)),
          ((("proxy-id").data), (("file:///old/p").data))] =
      Except.ok
        (setAttr ("proxy-id").data (("file:///new/p").data)
          (setAttr ("id").data (("file:///old/a").data)
            [((("id").data), (("file:///old/a").data)),
              ((("proxy-id").data), (("file:///old/p").data))]),
          [warnMsg (("/new/a").data)] ++ []) := by
  refine ⟨⟨by decide, by decide, by decide, by decide⟩, ?_⟩
  exact rewriteDocument_asset_attrs.1 (fun p => p == ("/new/p").data)
    (("old").data) (("new").data)
    [((("id").data), (("file:///old/a").data)),
      ((("proxy-id").data), (("file:///old/p").data))]
    (("file:///old/a").data) (("file:///old/a").data)
    (("file:///old/p").data) (("file:///new/p").data)
    [warnMsg (("/new/a").data)] []
    (by decide) (by decide) (by decide) (by decide) (by decide)

end PitiviMover
